import Mathlib

/-!
Verification of the Google-Drive-to-Qdrant sync pipeline.

Shallow embedding of the pipeline's core functions, translated from the
Python sources:

* `embedding_generator.py` — `EmbeddingGenerator.generate_embeddings_batch`
* `document_processor.py`  — `DocumentProcessor.process_document` / `_find_line_range`
* `google_drive_handler.py` — `get_all_subfolders` / `get_files_recursively`
* `qdrant_manager.py` — `upsert_chunks` / `_create_qdrant_point` / `_verify_upsert`
* `main.py` — `process_collection` / `main` / `run_with_error_handling`

Remote collaborators (the embedding service, the Drive listing API, the
vector store) are modelled as explicit oracle parameters; an exception
raised by a remote call is modelled as an `Option`/`Except` failure value.
-/

namespace DriveQdrant

/-! ## Embedding generator (`embedding_generator.py`, lines 73-135)

Vector components are never inspected or combined arithmetically by the
pipeline, only carried, counted and compared to the zero vector; they are
modelled as rationals so that everything stays decidable. -/

abbrev Vec := List ℚ

/-- Python `[0.0] * 1536` (lines 48, 115, 132). -/
def zeroVec : Vec := List.replicate 1536 0

/-- Python `text.replace('\n', ' ')`: a single-character pattern replace is a
character-wise map. -/
def replaceNewlines (s : String) : String :=
  String.mk (s.toList.map (fun c => if c = '\n' then ' ' else c))

/-- Python `str.strip()`: drop leading and trailing whitespace.  (Python strips
a slightly larger whitespace set than `Char.isWhitespace`; the difference is
immaterial here since the texts are compared only through this function.) -/
def pyStrip (s : String) : String :=
  String.mk (((s.toList.dropWhile Char.isWhitespace).reverse.dropWhile Char.isWhitespace).reverse)

/-- Line 86: `text.replace('\n', ' ').strip()`. -/
def clean (s : String) : String := pyStrip (replaceNewlines s)

/-- The remote call site of the batch path (line 100).  `run` receives the
number of remote requests issued so far and the non-empty cleaned texts; it
returns `none` when evaluating the call expression raised an exception and
`some vecs` with the response's embedding list otherwise, together with the
updated request count. -/
structure CallSite where
  run : ℕ → List String → Option (List Vec) × ℕ

/-- The call site as written.  Line 100 reads the name `openai`, which
`from openai import OpenAI` (line 4) does not bind, so evaluating the call
expression raises `NameError` before any request is issued: the remote
service `svc` is never invoked and the request count does not advance. -/
def asWrittenCallSite (_svc : ℕ → List String → Option (List Vec)) : CallSite :=
  ⟨fun n _ => (none, n)⟩

/-- The evidently intended call site (`self.client.embeddings.create`, exactly
as the single-text path uses at line 51): one remote request per attempt,
with outcome given by the service behaviour `svc`. -/
def clientCallSite (svc : ℕ → List String → Option (List Vec)) : CallSite :=
  ⟨fun n ts => (svc n ts, n + 1)⟩

/-- Lines 109-118: walk `cleaned_batch`, emitting a zero vector at each empty
position and consuming the next response embedding at each non-empty one.
`batch_embeddings[valid_idx]` raises `IndexError` (caught by the retry
`except`) when the response holds fewer embeddings than there were valid
texts; that is the `none` case.  Surplus response embeddings are ignored,
as in the source. -/
def reassemble : List String → List Vec → Option (List Vec)
  | [], _ => some []
  | c :: cs, bes =>
    if c = "" then (reassemble cs bes).map (fun v => zeroVec :: v)
    else
      match bes with
      | [] => none
      | b :: bs => (reassemble cs bs).map (fun v => b :: v)

/-- One iteration of the `try` body (lines 84-123) on one batch: clean the
texts, split off the empty positions, consult the remote call site only when
at least one valid text remains (line 99 `if valid_texts:`), then reassemble.
Result `none` means the iteration raised and the `except` branch runs. -/
def attemptOnce (cs : CallSite) (n : ℕ) (batch : List String) : Option (List Vec) × ℕ :=
  let cleaned := batch.map clean
  let valid := cleaned.filter (fun t => t ≠ "")
  if valid.isEmpty then (reassemble cleaned [], n)
  else
    match cs.run n valid with
    | (none, n') => (none, n')
    | (some bes, n') => (reassemble cleaned bes, n')

/-- Line 33: `self.max_retries = 3`. -/
def max_retries : ℕ := 3

/-- The retry loop for one batch (lines 83-132).  `fuel` is the number of
attempts remaining, starting from `max_retries`; on success the loop `break`s,
on the final failure (line 132) the whole batch degrades to zero vectors.
The `fuel = 0` base case is unreachable from the entry `retryBatch cs max_retries`
and is given the exhaustion value. -/
def retryBatch (cs : CallSite) : ℕ → ℕ → List String → List Vec × ℕ
  | 0, n, batch => (List.replicate batch.length zeroVec, n)
  | fuel + 1, n, batch =>
    match attemptOnce cs n batch with
    | (some vecs, n') => (vecs, n')
    | (none, n') =>
      if fuel = 0 then (List.replicate batch.length zeroVec, n')
      else retryBatch cs fuel n' batch

/-- Fuel-based loop body for `toBatches`: each step emits the slice
`l.take bs` and continues on `l.drop bs`.  The fuel argument only bounds the
iteration count so the recursion is structural; `toBatches` supplies fuel
`l.length`, which is enough whenever `0 < bs` since every step consumes at
least one element. -/
def toBatchesGo {β : Type*} (bs : ℕ) : ℕ → List β → List (List β)
  | _, [] => []
  | 0, _ :: _ => []
  | fuel + 1, x :: xs => ((x :: xs).take bs) :: toBatchesGo bs fuel ((x :: xs).drop bs)

/-- Line 80: `for i in range(0, len(texts), batch_size)` with slice
`texts[i:i + batch_size]` (`qdrant_manager.py` line 158 uses the same idiom).
For `batch_size = 0` Python's `range` raises `ValueError`; every theorem below
assumes `0 < batch_size` (the source only ever passes the default 100). -/
def toBatches {β : Type*} (bs : ℕ) (l : List β) : List (List β) :=
  toBatchesGo bs l.length l

/-- The batch loop (lines 80-132): process batches left to right, extending
the accumulated embeddings (`embeddings.extend`) and threading the remote
request count. -/
def runBatches (cs : CallSite) : ℕ → List (List String) → List Vec × ℕ
  | n, [] => ([], n)
  | n, b :: rest =>
    let r := retryBatch cs max_retries n b
    let r' := runBatches cs r.2 rest
    (r.1 ++ r'.1, r'.2)

/-- `EmbeddingGenerator.generate_embeddings_batch` (lines 73-135), with the
remote call site abstracted as `cs`.  Returns the embeddings together with
the number of remote requests issued. -/
def generate_embeddings_batch (cs : CallSite) (texts : List String) (batch_size : ℕ) :
    List Vec × ℕ :=
  runBatches cs 0 (toBatches batch_size texts)

/-! ## Document processor (`document_processor.py`, lines 44-104)

The langchain `RecursiveCharacterTextSplitter` is a third-party library, not
part of this repository; `process_document` is therefore modelled with the
splitter's output passed in as the `chunks` argument.  The splitter returns
substrings of the document (possibly overlapping at character level, by the
configured `chunk_overlap`). -/

/-- Python `content.split('\n')` (line 51), viewed on the character list. -/
def pyLines (s : String) : List (List Char) := s.toList.splitOn '\n'

/-- Line 95: `total_lines = len(lines)`. -/
def totalLines (s : String) : ℕ := (pyLines s).length

/-- Python `chunk_text.count('\n')` (line 88). -/
def countNewlines (s : String) : ℕ := s.toList.count '\n'

/-- `_find_line_range` (lines 81-104): `chunk_lines = chunk.count('\n') + 1`,
`start_line = start_from_line`, `end_line = start_line + chunk_lines - 1`,
then `end_line` (and only `end_line`) is clamped down to `total_lines`.
The `except` branch (line 104) is unreachable here: none of these operations
raises. -/
def find_line_range (chunk : String) (total : ℕ) (start_from_line : ℕ) : ℕ × ℕ :=
  let chunk_lines := countNewlines chunk + 1
  let start_line := start_from_line
  let end_line := start_line + chunk_lines - 1
  (start_line, if end_line > total then total else end_line)

/-- One output chunk of `process_document`: its text together with the
`loc.lines.from` / `loc.lines.to` fields written by `_create_chunk_payload`
(lines 118-123).  The remaining metadata fields are copied through unchanged
and play no role in the line-range claims. -/
structure ChunkPayload where
  content : String
  lineFrom : ℕ
  lineTo : ℕ
deriving DecidableEq, Repr

/-- The loop of `process_document` (lines 56-72): `current_line` starts at 1
and advances to `end_line + 1` after each chunk. -/
def processChunksLoop (total : ℕ) : ℕ → List String → List ChunkPayload
  | _, [] => []
  | current_line, c :: rest =>
    let r := find_line_range c total current_line
    ⟨c, r.1, r.2⟩ :: processChunksLoop total (r.2 + 1) rest

/-- `process_document` (lines 44-79), with the text splitter's output passed
in as `chunks`. -/
def process_document (content : String) (chunks : List String) : List ChunkPayload :=
  processChunksLoop (totalLines content) 1 chunks

/-- The chaining discipline of the `process_document` loop: the first chunk
starts at line `cur`, and each later chunk starts at the previous chunk's
`lineTo + 1`. -/
def ChainedFrom : ℕ → List ChunkPayload → Prop
  | _, [] => True
  | cur, p :: ps => p.lineFrom = cur ∧ ChainedFrom (p.lineTo + 1) ps

/-! ## Drive walker (`google_drive_handler.py`)

Folder ids are drawn from an arbitrary finite type `α` (the id space of an
actual Drive is finite); `children` models the subfolder query of line 123
(which already filters to non-trashed folder children of its argument). -/

/-- The recursion of `get_all_subfolders` (lines 107-147), worklist form.
`subfolder_walk children fs visited` runs the Python body over each folder id
in `fs` in order, threading the (mutated-in-place) `visited` set through:
an id already in `visited` contributes `[]` (line 115-116); otherwise the id
is added to `visited` (line 118) and listed first (line 119), followed by the
recursive enumeration of its children (lines 135-141).  The returned set is
the final state of `visited`, with the proof that it only ever grows —
that subset proof is what makes the recursion well-founded on a finite id
space even when the parent links are cyclic. -/
def subfolder_walk {α : Type*} [DecidableEq α] [Fintype α] (children : α → List α) :
    (fs : List α) → (visited : Finset α) → List α × {w : Finset α // visited ⊆ w}
  | [], visited => ([], ⟨visited, Finset.Subset.refl visited⟩)
  | f :: rest, visited =>
    if hf : f ∈ visited then subfolder_walk children rest visited
    else
      match subfolder_walk children (children f) (insert f visited) with
      | (l1, ⟨w1, hw1⟩) =>
        match subfolder_walk children rest w1 with
        | (l2, ⟨w2, hw2⟩) =>
          (f :: (l1 ++ l2),
           ⟨w2, (Finset.subset_insert f visited).trans (hw1.trans hw2)⟩)
  termination_by fs visited => (Fintype.card α - visited.card, fs.length)
  decreasing_by
    · exact Prod.Lex.right _ (Nat.lt_succ_self _)
    · exact Prod.Lex.left _ _ (Nat.sub_lt_sub_left
        (lt_of_lt_of_le (Finset.card_lt_card (Finset.ssubset_insert hf)) (Finset.card_le_univ _))
        (Finset.card_lt_card (Finset.ssubset_insert hf)))
    · rcases lt_or_eq_of_le (Nat.sub_le_sub_left
        (Finset.card_le_card ((Finset.subset_insert f visited).trans hw1)) (Fintype.card α)) with h | h
      · exact Prod.Lex.left _ _ h
      · rw [h]; exact Prod.Lex.right _ (Nat.lt_succ_self _)

/-- `get_all_subfolders(folder_id)` as called from `get_files_recursively`
(line 159): fresh `visited = set()` (lines 112-113). -/
def get_all_subfolders {α : Type*} [DecidableEq α] [Fintype α]
    (children : α → List α) (folder : α) : List α :=
  (subfolder_walk children [folder] ∅).1

/-- Raw file metadata as returned by the `files().list` query of
`get_files_from_folder` (lines 42-48).  The query string already restricts to
direct children of the folder with `trashed = false`, so a `listing` oracle
models exactly the non-trashed children the API reports. -/
structure DriveFile where
  id : String
  name : String
  mimeType : String
  webViewLink : String
deriving DecidableEq, Repr

/-- Lines 207-226 of `_process_file_metadata`. -/
def supported_mime_types : List String :=
  ["application/vnd.google-apps.document",
   "application/vnd.openxmlformats-officedocument.wordprocessingml.document",
   "application/pdf",
   "text/plain",
   "text/html",
   "application/json",
   "text/markdown",
   "text/x-markdown",
   "image/jpeg",
   "image/jpg",
   "image/png",
   "image/gif",
   "image/bmp",
   "image/tiff",
   "image/webp"]

/-- The metadata record built at lines 233-243 (the fields not shown are
copied from the same `file` dict and do not affect any claim). -/
structure FileMetadata where
  source : String
  fileId : String
  fileName : String
  mimeType : String
deriving DecidableEq, Repr

/-- `_process_file_metadata` (lines 203-252): unsupported media types are
dropped (`None`), supported ones yield the metadata record. -/
def process_file_metadata (f : DriveFile) : Option FileMetadata :=
  if f.mimeType ∈ supported_mime_types then
    some ⟨f.webViewLink, f.id, f.name, f.mimeType⟩
  else none

/-- `get_files_from_folder` (lines 29-64): list the folder's (non-trashed)
children and keep those `_process_file_metadata` accepts. -/
def get_files_from_folder {α : Type*} (listing : α → List DriveFile) (folder : α) :
    List FileMetadata :=
  (listing folder).filterMap process_file_metadata

/-- `get_files_recursively` (lines 149-201): when subfolder processing is off,
only the root folder's files (line 155); otherwise enumerate all folders with
`get_all_subfolders` and concatenate each folder's files in order
(lines 174-186).  The `source_folder_id` / `source_folder_name` annotations
and the folder-name lookup of lines 166-171 do not change which files appear
and are omitted. -/
def get_files_recursively {α : Type*} [DecidableEq α] [Fintype α]
    (include_subfolders : Bool) (children : α → List α)
    (listing : α → List DriveFile) (folder : α) : List FileMetadata :=
  if include_subfolders then
    ((get_all_subfolders children folder).map (get_files_from_folder listing)).flatten
  else
    get_files_from_folder listing folder

/-- One hop of the subfolder relation: `b` is listed among the subfolders of
`a`. -/
def SubfolderStep {α : Type*} (children : α → List α) (a b : α) : Prop :=
  b ∈ children a

/-- `f` lies in the root folder's transitive subfolder closure. -/
def ReachableFolder {α : Type*} (children : α → List α) (root f : α) : Prop :=
  Relation.ReflTransGen (SubfolderStep children) root f

/-! ## Qdrant manager (`qdrant_manager.py`)

Chunk metadata dicts are carried through unchanged; they are modelled by an
opaque type parameter `μ`. -/

/-- A chunk as it reaches `upsert_chunks`: `embedding = none` models a chunk
whose `'embedding'` key is missing (`chunk.get('embedding')` is `None`). -/
structure PipelineChunk (μ : Type*) where
  content : String
  metadata : μ
  embedding : Option Vec
deriving DecidableEq, Repr

/-- The point built at lines 209-220.  The `id` is a fresh `uuid4` string,
irrelevant to every claim (ids are never compared), and is omitted. -/
structure QdrantPoint (μ : Type*) where
  vector : Vec
  content : String
  metadata : μ
deriving DecidableEq, Repr

/-- `_create_qdrant_point` (lines 192-226): `if not embedding` is true both
for a missing key (`None`) and for an empty list, then the dimension check
rejects any vector whose length differs from 1536. -/
def create_qdrant_point {μ : Type*} (c : PipelineChunk μ) : Option (QdrantPoint μ) :=
  match c.embedding with
  | none => none
  | some e =>
    if e.isEmpty then none
    else if e.length ≠ 1536 then none
    else some ⟨e, c.content, c.metadata⟩

/-- Outcome of `_verify_upsert` (lines 228-240): a count mismatch is logged as
a warning (line 237) — there is no raise on either branch, which the total
codomain of `verify_upsert` makes manifest. -/
inductive VerifyOutcome
  | ok
  | countMismatch (expected actual : ℕ)
deriving DecidableEq, Repr

/-- `_verify_upsert` (lines 228-240), with the read-back point count passed
in as `actual`. -/
def verify_upsert (expected actual : ℕ) : VerifyOutcome :=
  if actual = expected then .ok else .countMismatch expected actual

/-- `upsert_chunks` (lines 148-190), with the `client.upsert` calls modelled
as succeeding (a raising call is outside this claim's scope): returns the
sequence of points actually submitted to the store, batch by batch, plus the
`_verify_upsert` outcome against the read-back count `readBack` (left
arbitrary: the store is eventually consistent).  A batch in which every chunk
fails conversion is skipped (`continue`, line 170), which does not change the
submitted sequence; `total_upserted` is the number of submitted points. -/
def upsert_chunks {μ : Type*} (chunks : List (PipelineChunk μ)) (batch_size : ℕ)
    (readBack : ℕ) : List (QdrantPoint μ) × VerifyOutcome :=
  let submitted := ((toBatches batch_size chunks).map
    (fun b => b.filterMap create_qdrant_point)).flatten
  (submitted, verify_upsert submitted.length readBack)

/-! ## Orchestrator (`main.py`)

`process_collection` (lines 30-154) is modelled as a function of the target
collection's point set, with every fallible stage given by an oracle; an
`Except.error` stands for the stage raising.  Store reads
(`_verify_connection`, `get_collection_stats`) take no store argument at all:
they perform no writes.  `download_file_content` catches every exception and
returns `""` (`google_drive_handler.py` lines 300-302), so step 2 never
raises and empty-content files are skipped (lines 91-93);
`process_multiple_documents` likewise never raises (per-document errors yield
`[]`, `document_processor.py` lines 77-79). -/

structure CollectionOracles (μ : Type*) where
  /-- Component initialisation, in particular `QdrantManager._verify_connection`
  (read-only store access; raises on missing collection or dimension
  mismatch). -/
  verifyConnection : Except String Unit
  /-- Step 1, Drive folder walking (lines 60-70 of `main.py`). -/
  fetchFiles : Except String (List FileMetadata)
  /-- Step 2, per-file content download; `""` means the file is skipped. -/
  downloadContent : FileMetadata → String
  /-- Step 3, `process_multiple_documents` over the downloaded documents. -/
  chunkDocs : List (FileMetadata × String) → List (PipelineChunk μ)
  /-- Step 4, `add_embeddings_to_chunks` (re-raises on error, line 163 of
  `embedding_generator.py`). -/
  embed : List (PipelineChunk μ) → Except String (List (PipelineChunk μ))
  /-- Step 5, `clear_collection`: it re-raises only for exceptions from the
  initial `get_collection` read (line 85 of `qdrant_manager.py`), which
  happens before any deletion; `_delete_all_points_by_scroll` swallows its own
  errors (lines 144-146). -/
  clearRead : Except String Unit
  /-- Step 6, the `client.upsert` calls inside `upsert_chunks`. -/
  upsertWrite : Except String Unit
  /-- The store's point set after an upsert call raised mid-way (partial
  writes are possible; the source does not roll back). -/
  partialStore : List (QdrantPoint μ)
  /-- The point count the store reports when read back. -/
  readBack : ℕ

/-- The per-collection result dict: `{"success": True, ...}` or
`{"success": False, "error": ...}` (lines 140-147 and 154). -/
inductive ColResult
  | success (documents chunks points : ℕ)
  | failure (error : String)
deriving DecidableEq, Repr

def ColResult.isSuccess : ColResult → Bool
  | .success .. => true
  | .failure _ => false

/-- `process_collection` (lines 30-154): the stage sequence of the `try` body,
with the surrounding `except` (lines 149-154) turning any stage exception into
a failure result.  The store argument is the target collection's current point
set; it is returned unchanged on every exit that precedes step 5. -/
def process_collection {μ : Type*} (o : CollectionOracles μ)
    (store : List (QdrantPoint μ)) : ColResult × List (QdrantPoint μ) :=
  match o.verifyConnection with
  | .error e => (.failure e, store)
  | .ok _ =>
    match o.fetchFiles with
    | .error e => (.failure e, store)
    | .ok files =>
      if files.isEmpty then (.failure "No files found", store)
      else
        let documents := (files.map (fun f => (f, o.downloadContent f))).filter
          (fun d => d.2 ≠ "")
        let all_chunks := o.chunkDocs documents
        if all_chunks.isEmpty then (.failure "No chunks created", store)
        else
          match o.embed all_chunks with
          | .error e => (.failure e, store)
          | .ok chunks_with_embeddings =>
            match o.clearRead with
            | .error e => (.failure e, store)
            | .ok _ =>
              match o.upsertWrite with
              | .error e => (.failure e, o.partialStore)
              | .ok _ =>
                (.success documents.length all_chunks.length o.readBack,
                 (upsert_chunks chunks_with_embeddings 100 o.readBack).1)

/-- Decides whether the run reaches the load phase (steps 5-6); until then no
store write is reachable. -/
def reachesLoadPhase {μ : Type*} (o : CollectionOracles μ) : Bool :=
  match o.verifyConnection with
  | .error _ => false
  | .ok _ =>
    match o.fetchFiles with
    | .error _ => false
    | .ok files =>
      if files.isEmpty then false
      else
        let documents := (files.map (fun f => (f, o.downloadContent f))).filter
          (fun d => d.2 ≠ "")
        let all_chunks := o.chunkDocs documents
        if all_chunks.isEmpty then false
        else
          match o.embed all_chunks with
          | .error _ => false
          | .ok _ => true

/-- One configured collection: its behaviour oracles and its target store's
pre-run point set (targets are disjoint across collections). -/
structure CollectionRun (μ : Type*) where
  name : String
  oracles : CollectionOracles μ
  store : List (QdrantPoint μ)

/-- The orchestrator loop of `main` (lines 196-208): every configured (or
targeted) collection is attempted in order and its result recorded. -/
def main_results {μ : Type*} (runs : List (CollectionRun μ)) : List ColResult :=
  runs.map (fun r => (process_collection r.oracles r.store).1)

/-- `failed_collections` (lines 199-208). -/
def failed_collections {μ : Type*} (runs : List (CollectionRun μ)) : ℕ :=
  (main_results runs).countP (fun r => !r.isSuccess)

/-- The process exit status: `main` raises iff `failed_collections > 0`
(lines 234-235) and `run_with_error_handling` maps a normal return to
`sys.exit(0)` and the raise to `sys.exit(1)` (lines 255-263).  (The summary
loop at line 229 can itself raise `KeyError` on a failure result that lacks
`collection_name`, e.g. "No files found" — but that path is only reachable
when at least one collection failed, and it also ends in `sys.exit(1)`, so
the exit status is unaffected.) -/
def process_exit_code {μ : Type*} (runs : List (CollectionRun μ)) : ℕ :=
  if 0 < failed_collections runs then 1 else 0

/-- Demonstration oracles: a collection whose Drive walk raises in step 1. -/
def demoFailOracles : CollectionOracles Unit :=
  ⟨.ok (), .error "Drive API error", fun _ => "", fun _ => [],
   fun cs => .ok cs, .ok (), .ok (), [], 0⟩

/-- Demonstration oracles: a collection whose every stage succeeds, producing
one document, one chunk and one point. -/
def demoOkOracles : CollectionOracles Unit :=
  ⟨.ok (), .ok [⟨"link", "id1", "doc.txt", "text/plain"⟩], fun _ => "body",
   fun _ => [⟨"body", (), some zeroVec⟩], fun cs => .ok cs, .ok (), .ok (), [], 1⟩

/-- Demonstration oracles: a collection whose embedding stage raises. -/
def demoEmbedFailOracles : CollectionOracles Unit :=
  ⟨.ok (), .ok [⟨"link", "id1", "doc.txt", "text/plain"⟩], fun _ => "body",
   fun _ => [⟨"body", (), none⟩], fun _ => .error "embedding error",
   .ok (), .ok (), [], 0⟩

/-! ## Lemmas: embedding generator -/

lemma reassemble_rel {ts : List String} {bes : List Vec} {v : List Vec}
    (h : reassemble ts bes = some v) :
    List.Forall₂ (fun t w => t = "" → w = zeroVec) ts v := by
  induction ts generalizing bes v with
  | nil =>
    simp only [reassemble, Option.some.injEq] at h
    simp [← h]
  | cons c rest ih =>
    by_cases hc : c = ""
    · rcases hrec : reassemble rest bes with _ | w
      · simp [reassemble, hc, hrec] at h
      · simp [reassemble, hc, hrec] at h
        subst h
        exact List.Forall₂.cons (fun _ => rfl) (ih hrec)
    · cases bes with
      | nil => simp [reassemble, hc] at h
      | cons b bs =>
        rcases hrec : reassemble rest bs with _ | w
        · simp [reassemble, hc, hrec] at h
        · simp [reassemble, hc, hrec] at h
          subst h
          exact List.Forall₂.cons (fun he => absurd he hc) (ih hrec)

lemma reassemble_all_empty {ts : List String} (h : ∀ t ∈ ts, t = "") :
    reassemble ts [] = some (List.replicate ts.length zeroVec) := by
  induction ts with
  | nil => rfl
  | cons c rest ih =>
    have hc : c = "" := h c (by simp)
    simp [reassemble, hc, ih (fun t ht => h t (by simp [ht])), List.replicate_succ]

lemma attemptOnce_some_rel {cs : CallSite} {n n' : ℕ} {batch : List String}
    {v : List Vec} (h : attemptOnce cs n batch = (some v, n')) :
    List.Forall₂ (fun t w => clean t = "" → w = zeroVec) batch v := by
  simp only [attemptOnce] at h
  have key : ∀ {bes : List Vec}, reassemble (batch.map clean) bes = some v →
      List.Forall₂ (fun t w => clean t = "" → w = zeroVec) batch v := by
    intro bes hb
    exact List.forall₂_map_left_iff.mp (reassemble_rel hb)
  split at h
  · rw [Prod.mk.injEq] at h
    exact key h.1
  · split at h
    · simp at h
    · rw [Prod.mk.injEq] at h
      exact key h.1

lemma attemptOnce_some_length {cs : CallSite} {n n' : ℕ} {batch : List String}
    {v : List Vec} (h : attemptOnce cs n batch = (some v, n')) :
    v.length = batch.length :=
  (attemptOnce_some_rel h).length_eq.symm

lemma rel_replicate_zeroVec (l : List String) :
    List.Forall₂ (fun t w => clean t = "" → w = zeroVec) l
      (List.replicate l.length zeroVec) := by
  induction l with
  | nil => simp
  | cons c rest ih => simpa [List.replicate_succ] using ih

lemma retryBatch_length (cs : CallSite) (fuel n : ℕ) (batch : List String) :
    ((retryBatch cs fuel n batch).1).length = batch.length := by
  induction fuel generalizing n with
  | zero => simp [retryBatch]
  | succ fuel ih =>
    rw [retryBatch]
    rcases hA : attemptOnce cs n batch with ⟨res, n'⟩
    cases res with
    | some v => simpa using attemptOnce_some_length hA
    | none =>
      by_cases hf : fuel = 0
      · simp [hf]
      · simpa [hf] using ih n'

lemma retryBatch_rel (cs : CallSite) (fuel n : ℕ) (batch : List String) :
    List.Forall₂ (fun t w => clean t = "" → w = zeroVec) batch
      (retryBatch cs fuel n batch).1 := by
  induction fuel generalizing n with
  | zero => simpa [retryBatch] using rel_replicate_zeroVec batch
  | succ fuel ih =>
    rw [retryBatch]
    rcases hA : attemptOnce cs n batch with ⟨res, n'⟩
    cases res with
    | some v => simpa using attemptOnce_some_rel hA
    | none =>
      by_cases hf : fuel = 0
      · simpa [hf] using rel_replicate_zeroVec batch
      · simpa [hf] using ih n'

lemma runBatches_length (cs : CallSite) (n : ℕ) (L : List (List String)) :
    ((runBatches cs n L).1).length = (L.map List.length).sum := by
  induction L generalizing n with
  | nil => simp [runBatches]
  | cons b rest ih => simp [runBatches, retryBatch_length, ih]

lemma runBatches_rel (cs : CallSite) (n : ℕ) (L : List (List String)) :
    List.Forall₂ (fun t w => clean t = "" → w = zeroVec) L.flatten
      (runBatches cs n L).1 := by
  induction L generalizing n with
  | nil => simp [runBatches]
  | cons b rest ih =>
    simpa [runBatches] using List.rel_append (retryBatch_rel cs max_retries n b) (ih _)

lemma toBatchesGo_flatten {β : Type*} {bs : ℕ} (hbs : 0 < bs) :
    ∀ (fuel : ℕ) (l : List β), l.length ≤ fuel → (toBatchesGo bs fuel l).flatten = l := by
  intro fuel
  induction fuel with
  | zero =>
    intro l hl
    rw [Nat.le_zero, List.length_eq_zero] at hl
    simp [hl, toBatchesGo]
  | succ fuel ih =>
    intro l hl
    cases l with
    | nil => simp [toBatchesGo]
    | cons x xs =>
      rw [toBatchesGo, List.flatten_cons, ih]
      · exact List.take_append_drop bs (x :: xs)
      · simp only [List.length_drop, List.length_cons] at hl ⊢
        omega

lemma toBatches_flatten {β : Type*} {bs : ℕ} (hbs : 0 < bs) (l : List β) :
    (toBatches bs l).flatten = l :=
  toBatchesGo_flatten hbs l.length l le_rfl

lemma toBatches_sum_lengths {β : Type*} {bs : ℕ} (hbs : 0 < bs) (l : List β) :
    ((toBatches bs l).map List.length).sum = l.length := by
  rw [← List.length_flatten, toBatches_flatten hbs]

lemma filter_clean_empty_all {batch : List String}
    (h : ((batch.map clean).filter (fun t => t ≠ "")).isEmpty = true) :
    ∀ t ∈ batch, clean t = "" := by
  intro t ht
  rw [List.isEmpty_iff] at h
  have := List.filter_eq_nil_iff.mp h (clean t) (List.mem_map_of_mem clean ht)
  simpa using this

lemma filter_clean_all_empty {batch : List String} (h : ∀ t ∈ batch, clean t = "") :
    ((batch.map clean).filter (fun t => t ≠ "")).isEmpty = true := by
  rw [List.isEmpty_iff, List.filter_eq_nil_iff]
  intro a ha
  obtain ⟨t, ht, rfl⟩ := List.mem_map.mp ha
  simp [h t ht]

lemma attemptOnce_all_empty (cs : CallSite) (n : ℕ) {batch : List String}
    (h : ∀ t ∈ batch, clean t = "") :
    attemptOnce cs n batch = (some (List.replicate batch.length zeroVec), n) := by
  have hall : ∀ t ∈ batch.map clean, t = "" := by
    intro t ht
    obtain ⟨u, hu, rfl⟩ := List.mem_map.mp ht
    exact h u hu
  simp only [attemptOnce, filter_clean_all_empty h, if_true, if_pos rfl,
    reassemble_all_empty hall, List.length_map]

/-- With the call site as written (unbound name `openai`), every attempt on a
batch that holds a valid text raises before reaching the remote service, and a
batch of only empty texts never consults it either: every batch degrades to
zero vectors and the request count never advances. -/
lemma asWritten_retryBatch (svc : ℕ → List String → Option (List Vec))
    (fuel n : ℕ) (batch : List String) :
    retryBatch (asWrittenCallSite svc) fuel n batch
      = (List.replicate batch.length zeroVec, n) := by
  induction fuel generalizing n with
  | zero => rfl
  | succ fuel ih =>
    rw [retryBatch]
    by_cases hemp : ((batch.map clean).filter (fun t => t ≠ "")).isEmpty = true
    · rw [attemptOnce_all_empty _ n (filter_clean_empty_all hemp)]
    · have hA : attemptOnce (asWrittenCallSite svc) n batch = (none, n) := by
        simp only [attemptOnce, asWrittenCallSite]
        rw [if_neg hemp]
      rw [hA]
      by_cases hf : fuel = 0
      · simp [hf]
      · simpa [hf] using ih n

lemma asWritten_runBatches (svc : ℕ → List String → Option (List Vec))
    (n : ℕ) (L : List (List String)) :
    runBatches (asWrittenCallSite svc) n L
      = (List.replicate (L.map List.length).sum zeroVec, n) := by
  induction L generalizing n with
  | nil => simp [runBatches]
  | cons b rest ih =>
    rw [runBatches, asWritten_retryBatch svc max_retries n b, ih n]
    dsimp only
    rw [List.map_cons, List.sum_cons, List.replicate_add]

lemma mem_filter_ne_empty {batch : List String} :
    "" ∉ (batch.map clean).filter (fun t => t ≠ "") := by
  intro hm
  have := List.of_mem_filter hm
  simp at this

lemma attemptOnce_congr {cs cs' : CallSite}
    (h : ∀ m ts, "" ∉ ts → cs.run m ts = cs'.run m ts) (n : ℕ) (batch : List String) :
    attemptOnce cs n batch = attemptOnce cs' n batch := by
  simp only [attemptOnce]
  by_cases hemp : ((batch.map clean).filter (fun t => t ≠ "")).isEmpty = true
  · rw [if_pos hemp, if_pos hemp]
  · rw [if_neg hemp, if_neg hemp, h n _ mem_filter_ne_empty]

lemma retryBatch_congr {cs cs' : CallSite}
    (h : ∀ m ts, "" ∉ ts → cs.run m ts = cs'.run m ts) (fuel n : ℕ)
    (batch : List String) :
    retryBatch cs fuel n batch = retryBatch cs' fuel n batch := by
  induction fuel generalizing n with
  | zero => rfl
  | succ fuel ih =>
    rw [retryBatch, retryBatch, attemptOnce_congr h n batch]
    rcases hA : attemptOnce cs' n batch with ⟨res, n'⟩
    cases res with
    | some v => rfl
    | none =>
      by_cases hf : fuel = 0
      · simp [hf]
      · simp [hf, ih n']

lemma runBatches_congr {cs cs' : CallSite}
    (h : ∀ m ts, "" ∉ ts → cs.run m ts = cs'.run m ts) (n : ℕ)
    (L : List (List String)) :
    runBatches cs n L = runBatches cs' n L := by
  induction L generalizing n with
  | nil => rfl
  | cons b rest ih =>
    rw [runBatches, runBatches, retryBatch_congr h max_retries n b, ih]

lemma retryBatch_all_empty (cs : CallSite) (fuel n : ℕ) {batch : List String}
    (hfuel : 0 < fuel) (h : ∀ t ∈ batch, clean t = "") :
    retryBatch cs fuel n batch = (List.replicate batch.length zeroVec, n) := by
  cases fuel with
  | zero => exact absurd hfuel (lt_irrefl 0)
  | succ fuel => rw [retryBatch, attemptOnce_all_empty cs n h]

lemma runBatches_all_empty (cs : CallSite) :
    ∀ (L : List (List String)), (∀ b ∈ L, ∀ t ∈ b, clean t = "") → ∀ n : ℕ,
      runBatches cs n L = (List.replicate (L.map List.length).sum zeroVec, n) := by
  intro L
  induction L with
  | nil => intro _ n; simp [runBatches]
  | cons b rest ih =>
    intro h n
    rw [runBatches,
      retryBatch_all_empty cs max_retries n (by norm_num [max_retries]) (h b (by simp)),
      ih (fun b' hb' => h b' (by simp [hb'])) n]
    dsimp only
    rw [List.map_cons, List.sum_cons, List.replicate_add]

/-! ## Theorems: claims C1, C3, C4, C9 -/

/-- C1 (confirmed): batch embedding is length-preserving — for every remote
call-site behaviour `cs` (covering partial and total failure of any batch's
calls, and in particular both the as-written and the intended call site),
every list of input texts and every positive batch size,
`generate_embeddings_batch` returns exactly one vector per input text. -/
theorem generate_embeddings_batch_length_preserving
    (cs : CallSite) (texts : List String) (bs : ℕ) (hbs : 0 < bs) :
    ((generate_embeddings_batch cs texts bs).1).length = texts.length := by
  rw [generate_embeddings_batch, runBatches_length, toBatches_sum_lengths hbs]

theorem generate_embeddings_batch_length_preserving_witness :
    0 < 2 ∧ ((generate_embeddings_batch (clientCallSite (fun _ _ => none))
      ["a", "", "b"] 2).1).length = 3 :=
  ⟨by decide,
   generate_embeddings_batch_length_preserving (clientCallSite (fun _ _ => none))
     ["a", "", "b"] 2 (by decide)⟩

/-- C3 (code bug): with the call site as the source writes it — line 100 reads
the unbound name `openai`, since line 4 imports only the `OpenAI` class — every
attempt raises `NameError` before a request is issued.  Whatever the remote
service's behaviour (in particular one failing on attempts 1-2 and succeeding
on attempt 3), zero requests reach it and every output vector is the zero
vector, contradicting the claimed real vectors after exactly 3 attempts. -/
theorem generate_embeddings_batch_as_written_never_reaches_service
    (svc : ℕ → List String → Option (List Vec)) (texts : List String) :
    generate_embeddings_batch (asWrittenCallSite svc) texts 100
      = (List.replicate texts.length zeroVec, 0) := by
  rw [generate_embeddings_batch, asWritten_runBatches,
    toBatches_sum_lengths (by norm_num)]

/-- Under the intended call site (`self.client.embeddings.create`, as the
single-text path of line 51 does it), a service failing on the first two
attempts and succeeding on the third yields the service's real vectors after
exactly three requests — the behaviour the claim describes. -/
lemma clientCallSite_third_attempt_succeeds :
    generate_embeddings_batch
      (clientCallSite (fun n _ => if n < 2 then none else some [List.replicate 1536 1]))
      ["hello"] 100
      = ([List.replicate 1536 1], 3) := rfl

lemma retryBatch_three_failures {cs : CallSite} {batch : List String}
    {n n1 n2 n3 : ℕ}
    (hvalid : ((batch.map clean).filter (fun t => t ≠ "")).isEmpty = false)
    (h0 : cs.run n ((batch.map clean).filter (fun t => t ≠ "")) = (none, n1))
    (h1 : cs.run n1 ((batch.map clean).filter (fun t => t ≠ "")) = (none, n2))
    (h2 : cs.run n2 ((batch.map clean).filter (fun t => t ≠ "")) = (none, n3)) :
    retryBatch cs max_retries n batch = (List.replicate batch.length zeroVec, n3) := by
  have hA : ∀ m m' : ℕ,
      cs.run m ((batch.map clean).filter (fun t => t ≠ "")) = (none, m') →
      attemptOnce cs m batch = (none, m') := by
    intro m m' hr
    simp only [attemptOnce]
    rw [if_neg (by rw [hvalid]; exact Bool.false_ne_true), hr]
  rw [show max_retries = 2 + 1 from rfl, retryBatch, hA n n1 h0]
  dsimp only
  rw [if_neg (by decide : ¬(2 : ℕ) = 0), show (2 : ℕ) = 1 + 1 from rfl,
    retryBatch, hA n1 n2 h1]
  dsimp only
  rw [if_neg (by decide : ¬(1 : ℕ) = 0), show (1 : ℕ) = 0 + 1 from rfl,
    retryBatch, hA n2 n3 h2]
  dsimp only
  rw [if_pos rfl]

/-- C4 (confirmed): when the remote call for a batch (here the first batch
`B1`, which holds at least one valid text — otherwise no remote call is ever
attempted) fails on all `max_retries = 3` attempts, the output contains one
1536-long zero vector per position of that batch, and the remaining batches
`Bs` are still processed from the updated request count: the failure is
contained to the failing batch and later batches may still succeed. -/
theorem generate_embeddings_batch_failed_batch_degrades_to_zero
    (cs : CallSite) (bs : ℕ) (texts : List String) (B1 : List String)
    (Bs : List (List String)) (n1 n2 n3 : ℕ)
    (hB : toBatches bs texts = B1 :: Bs)
    (hvalid : ((B1.map clean).filter (fun t => t ≠ "")).isEmpty = false)
    (h0 : cs.run 0 ((B1.map clean).filter (fun t => t ≠ "")) = (none, n1))
    (h1 : cs.run n1 ((B1.map clean).filter (fun t => t ≠ "")) = (none, n2))
    (h2 : cs.run n2 ((B1.map clean).filter (fun t => t ≠ "")) = (none, n3)) :
    generate_embeddings_batch cs texts bs
      = (List.replicate B1.length zeroVec ++ (runBatches cs n3 Bs).1,
         (runBatches cs n3 Bs).2) := by
  rw [generate_embeddings_batch, hB, runBatches,
    retryBatch_three_failures hvalid h0 h1 h2]

theorem generate_embeddings_batch_failed_batch_degrades_to_zero_witness :
    toBatches 1 ["a", "b"] = ["a"] :: [["b"]] ∧
    (((["a"] : List String).map clean).filter (fun t => t ≠ "")).isEmpty = false ∧
    generate_embeddings_batch
      (clientCallSite (fun n _ => if n < 3 then none else some [[1]])) ["a", "b"] 1
      = (List.replicate (["a"] : List String).length zeroVec
          ++ (runBatches (clientCallSite (fun n _ => if n < 3 then none else some [[1]]))
               3 [["b"]]).1,
         (runBatches (clientCallSite (fun n _ => if n < 3 then none else some [[1]]))
               3 [["b"]]).2) :=
  ⟨rfl, rfl,
   generate_embeddings_batch_failed_batch_degrades_to_zero
     (clientCallSite (fun n _ => if n < 3 then none else some [[1]]))
     1 ["a", "b"] ["a"] [["b"]] 1 2 3 rfl rfl rfl rfl rfl⟩

/-- C9 (confirmed), three parts: (i) per position, any input text that cleans
to the empty string receives the 1536-long zero vector at its position, for
every call-site behaviour; (ii) a text list consisting only of
empty/whitespace texts issues zero remote requests and returns all-zero
vectors; (iii) the result never depends on how the service would behave on an
argument list containing an empty text — the call site is only ever consulted
on the non-empty cleaned texts, so no remote call is made on behalf of an
empty text. -/
theorem generate_embeddings_batch_empty_texts :
    (∀ (cs : CallSite) (texts : List String) (bs : ℕ), 0 < bs →
      List.Forall₂ (fun t v => clean t = "" → v = zeroVec) texts
        (generate_embeddings_batch cs texts bs).1) ∧
    (∀ (cs : CallSite) (texts : List String) (bs : ℕ), 0 < bs →
      (∀ t ∈ texts, clean t = "") →
      generate_embeddings_batch cs texts bs
        = (List.replicate texts.length zeroVec, 0)) ∧
    (∀ (cs cs' : CallSite) (texts : List String) (bs : ℕ),
      (∀ m ts, "" ∉ ts → cs.run m ts = cs'.run m ts) →
      generate_embeddings_batch cs texts bs
        = generate_embeddings_batch cs' texts bs) := by
  refine ⟨?_, ?_, ?_⟩
  · intro cs texts bs hbs
    have h := runBatches_rel cs 0 (toBatches bs texts)
    rwa [toBatches_flatten hbs] at h
  · intro cs texts bs hbs hall
    rw [generate_embeddings_batch, runBatches_all_empty cs _ ?_ 0,
      toBatches_sum_lengths hbs]
    intro b hb t ht
    refine hall t ?_
    rw [← toBatches_flatten hbs texts]
    exact List.mem_flatten.mpr ⟨b, hb, ht⟩
  · intro cs cs' texts bs h
    rw [generate_embeddings_batch, generate_embeddings_batch, runBatches_congr h]

theorem generate_embeddings_batch_empty_texts_witness :
    0 < 100 ∧ (∀ t ∈ ([" ", "\n"] : List String), clean t = "") ∧
    generate_embeddings_batch (clientCallSite (fun _ _ => none)) [" ", "\n"] 100
      = (List.replicate 2 zeroVec, 0) :=
  ⟨by decide, by decide,
   generate_embeddings_batch_empty_texts.2.1 (clientCallSite (fun _ _ => none))
     [" ", "\n"] 100 (by decide) (by decide)⟩

/-! ## Theorems: claim C2 (document processor line ranges) -/

lemma totalLines_pos (s : String) : 1 ≤ totalLines s := by
  rw [totalLines, pyLines, List.splitOn]
  exact List.length_pos.mpr (List.splitOnP_ne_nil _ _)

lemma find_line_range_spec (c : String) (total cur : ℕ) (htotal : 1 ≤ total)
    (hcur : 1 ≤ cur) :
    (find_line_range c total cur).1 = cur ∧
    1 ≤ (find_line_range c total cur).2 ∧
    (find_line_range c total cur).2 ≤ total ∧
    (cur ≤ total → cur ≤ (find_line_range c total cur).2) := by
  unfold find_line_range
  dsimp only
  by_cases hgt : cur + (countNewlines c + 1) - 1 > total
  · rw [if_pos hgt]
    exact ⟨rfl, htotal, le_rfl, fun h => h⟩
  · rw [if_neg hgt]
    exact ⟨rfl, by omega, by omega, by omega⟩

lemma processChunksLoop_invariant {total : ℕ} (htotal : 1 ≤ total) :
    ∀ (chunks : List String) (cur : ℕ), 1 ≤ cur → cur ≤ total + 1 →
      ChainedFrom cur (processChunksLoop total cur chunks) ∧
      ∀ p ∈ processChunksLoop total cur chunks,
        1 ≤ p.lineFrom ∧ p.lineFrom ≤ total + 1 ∧
        1 ≤ p.lineTo ∧ p.lineTo ≤ total ∧
        (p.lineFrom ≤ total → p.lineFrom ≤ p.lineTo) := by
  intro chunks
  induction chunks with
  | nil =>
    intro cur h1 h2
    exact ⟨trivial, by simp [processChunksLoop]⟩
  | cons c rest ih =>
    intro cur h1 h2
    obtain ⟨hfst, he1, he2, he3⟩ := find_line_range_spec c total cur htotal h1
    rw [processChunksLoop]
    obtain ⟨ihc, ihm⟩ := ih ((find_line_range c total cur).2 + 1) (by omega) (by omega)
    refine ⟨⟨hfst, ihc⟩, ?_⟩
    intro p hp
    rcases List.mem_cons.mp hp with hp | hp
    · subst hp
      dsimp only
      rw [hfst]
      exact ⟨h1, by omega, he1, he2, he3⟩
    · exact ihm p hp

/-- C2 (corrected, amended): for every document and every splitter output,
`process_document` assigns line ranges that chain (each chunk's `lineFrom` is
the previous chunk's `lineTo + 1`, starting at 1 — hence both bounds are
non-decreasing across the sequence), with `lineTo` always clamped into
`[1, totalLines]` and `1 ≤ lineFrom ≤ totalLines + 1`; `lineFrom ≤ lineTo`
holds whenever `lineFrom ≤ totalLines`, but `lineFrom` itself is never
clamped, so once the cumulative chunk line count passes the document's end a
trailing chunk gets `lineFrom = totalLines + 1 > lineTo = totalLines`. -/
theorem process_document_line_ranges_amended (content : String) (chunks : List String) :
    ChainedFrom 1 (process_document content chunks) ∧
    ∀ p ∈ process_document content chunks,
      1 ≤ p.lineFrom ∧ p.lineFrom ≤ totalLines content + 1 ∧
      1 ≤ p.lineTo ∧ p.lineTo ≤ totalLines content ∧
      (p.lineFrom ≤ totalLines content → p.lineFrom ≤ p.lineTo) :=
  processChunksLoop_invariant (totalLines_pos content) chunks 1 le_rfl
    (by have := totalLines_pos content; omega)

theorem process_document_line_ranges_amended_witness :
    ((⟨"c\nd", 5, 4⟩ : ChunkPayload)
        ∈ process_document "a\nb\nc\nd" ["a\nb", "b\nc", "c\nd"]) ∧
    (1 ≤ 5 ∧ 5 ≤ totalLines "a\nb\nc\nd" + 1 ∧
     1 ≤ 4 ∧ 4 ≤ totalLines "a\nb\nc\nd" ∧
     (5 ≤ totalLines "a\nb\nc\nd" → 5 ≤ 4)) :=
  ⟨by decide,
   (process_document_line_ranges_amended "a\nb\nc\nd" ["a\nb", "b\nc", "c\nd"]).2
     ⟨"c\nd", 5, 4⟩ (by decide)⟩

/-- C2 (counterexample): the 4-line document "a\nb\nc\nd" with the
character-overlapping splitter output ["a\nb", "b\nc", "c\nd"] — each chunk a
contiguous substring of the document, exactly the shape the langchain splitter
produces with a character overlap (e.g. chunk_size 3, chunk_overlap 2) — is
assigned the line ranges (1,2), (3,4), (5,4): the third chunk has
startLine 5 > endLine 4 and startLine 5 > totalLines 4, refuting the claim
that every chunk satisfies startLine ≤ endLine with both bounds in
[1, totalLines]. -/
theorem process_document_line_ranges_counterexample :
    (∀ c ∈ (["a\nb", "b\nc", "c\nd"] : List String),
        c.toList <:+: "a\nb\nc\nd".toList) ∧
    totalLines "a\nb\nc\nd" = 4 ∧
    process_document "a\nb\nc\nd" ["a\nb", "b\nc", "c\nd"]
      = [⟨"a\nb", 1, 2⟩, ⟨"b\nc", 3, 4⟩, ⟨"c\nd", 5, 4⟩] ∧
    ¬ (∀ p ∈ process_document "a\nb\nc\nd" ["a\nb", "b\nc", "c\nd"],
        p.lineFrom ≤ p.lineTo ∧
        1 ≤ p.lineFrom ∧ p.lineFrom ≤ totalLines "a\nb\nc\nd" ∧
        1 ≤ p.lineTo ∧ p.lineTo ≤ totalLines "a\nb\nc\nd") :=
  ⟨by decide, by decide, by decide, by decide⟩

/-! ## Lemmas: Drive walker -/

/-- Invariant of the walker: (a) every worklist entry ends up in the final
visited set; (b) the returned list is exactly the finally-visited ids that
were not already visited (as a set); (c) the returned list has no duplicates
— each container is enumerated at most once; (d) the newly visited set is
closed under listed children: every subfolder of a newly visited folder was
itself visited. -/
lemma subfolder_walk_spec {α : Type*} [DecidableEq α] [Fintype α]
    (children : α → List α) :
    ∀ (fs : List α) (visited : Finset α),
      (∀ f ∈ fs, f ∈ (subfolder_walk children fs visited).2.val) ∧
      ((subfolder_walk children fs visited).1.toFinset
        = (subfolder_walk children fs visited).2.val \ visited) ∧
      (subfolder_walk children fs visited).1.Nodup ∧
      (∀ x ∈ (subfolder_walk children fs visited).2.val, x ∉ visited →
        ∀ y ∈ children x, y ∈ (subfolder_walk children fs visited).2.val) := by
  intro fs visited
  induction fs, visited using subfolder_walk.induct children with
  | case1 visited =>
    rw [subfolder_walk]
    refine ⟨by simp, by simp, List.nodup_nil, ?_⟩
    intro x hx hnx _ _
    exact absurd hx hnx
  | case2 f rest visited hf ih =>
    rw [show subfolder_walk children (f :: rest) visited
        = subfolder_walk children rest visited by rw [subfolder_walk]; exact dif_pos hf]
    obtain ⟨ihA, ihB, ihC, ihD⟩ := ih
    refine ⟨?_, ihB, ihC, ihD⟩
    intro g hg
    rcases List.mem_cons.mp hg with rfl | hg
    · exact (subfolder_walk children rest visited).2.2 hf
    · exact ihA g hg
  | case3 f rest visited hf l1 w1 hw1 heq1 l2 w2 hw2 heq2 ih1 ih2 =>
    have hstep : subfolder_walk children (f :: rest) visited
        = (f :: (l1 ++ l2),
           ⟨w2, (Finset.subset_insert f visited).trans (hw1.trans hw2)⟩) := by
      rw [subfolder_walk]
      rw [dif_neg hf, heq1]
      dsimp only
      rw [heq2]
    rw [hstep] at *
    rw [heq1] at ih1
    rw [heq2] at ih2
    obtain ⟨ih1A, ih1B, ih1C, ih1D⟩ := ih1
    obtain ⟨ih2A, ih2B, ih2C, ih2D⟩ := ih2
    dsimp only at *
    have hfw1 : f ∈ w1 := hw1 (Finset.mem_insert_self f visited)
    have hfw2 : f ∈ w2 := hw2 hfw1
    have hvw1 : visited ⊆ w1 := (Finset.subset_insert f visited).trans hw1
    refine ⟨?_, ?_, ?_, ?_⟩
    · intro g hg
      rcases List.mem_cons.mp hg with rfl | hg
      · exact hfw2
      · exact ih2A g hg
    · ext x
      simp only [List.toFinset_cons, List.toFinset_append, Finset.mem_insert,
        Finset.mem_union, Finset.mem_sdiff, ih1B, ih2B]
      constructor
      · rintro (rfl | ⟨hx1, hx2⟩ | ⟨hx1, hx2⟩)
        · exact ⟨hfw2, hf⟩
        · exact ⟨hw2 hx1, fun hv => hx2 (Or.inr hv)⟩
        · exact ⟨hx1, fun hv => hx2 (hvw1 hv)⟩
      · rintro ⟨hxw2, hxv⟩
        by_cases hx1 : x ∈ w1
        · by_cases hxf : x = f
          · exact Or.inl hxf
          · refine Or.inr (Or.inl ⟨hx1, fun hins => ?_⟩)
            rcases hins with h | h
            · exact hxf h
            · exact hxv h
        · exact Or.inr (Or.inr ⟨hxw2, hx1⟩)
    · rw [List.nodup_cons]
      constructor
      · intro hmem
        rcases List.mem_append.mp hmem with h | h
        · have : f ∈ l1.toFinset := List.mem_toFinset.mpr h
          rw [ih1B] at this
          exact (Finset.mem_sdiff.mp this).2 (Finset.mem_insert_self f visited)
        · have : f ∈ l2.toFinset := List.mem_toFinset.mpr h
          rw [ih2B] at this
          exact (Finset.mem_sdiff.mp this).2 hfw1
      · refine List.Nodup.append ih1C ih2C ?_
        intro x hx1 hx2
        have m1 : x ∈ l1.toFinset := List.mem_toFinset.mpr hx1
        have m2 : x ∈ l2.toFinset := List.mem_toFinset.mpr hx2
        rw [ih1B] at m1
        rw [ih2B] at m2
        exact (Finset.mem_sdiff.mp m2).2 (Finset.mem_sdiff.mp m1).1
    · intro x hxw2 hxv y hy
      by_cases hx1 : x ∈ w1
      · by_cases hins : x ∈ insert f visited
        · have hxf : x = f := by
            rcases Finset.mem_insert.mp hins with h | h
            · exact h
            · exact absurd h hxv
          subst hxf
          exact hw2 (ih1A y hy)
        · exact hw2 (ih1D x hx1 hins y hy)
      · exact ih2D x hxw2 hx1 y hy

/-! ## Theorems: claim C5 (cycle-safe enumeration) -/

/-- C5 (confirmed): the recursion of `get_all_subfolders` is cycle-safe.  For
every container graph — cyclic ones included — it terminates: this is
witnessed by `subfolder_walk` being a total Lean function, whose recursion is
well-founded on the finite id space precisely because each root id is added to
`visited` before its children are walked.  Moreover: (i) an id already in
`visited` yields the empty list immediately and leaves the set untouched;
(ii) an unvisited root id is listed and the recursion over its children
receives `insert folder visited` — the root is marked visited before
recursing; (iii) the enumeration from a fresh visited set lists each container
at most once (no duplicates), and its members are exactly the finally-visited
containers. -/
theorem get_all_subfolders_cycle_safe {α : Type*} [DecidableEq α] [Fintype α]
    (children : α → List α) (folder : α) (visited : Finset α) :
    (folder ∈ visited →
      (subfolder_walk children [folder] visited).1 = [] ∧
      (subfolder_walk children [folder] visited).2.val = visited) ∧
    (folder ∉ visited →
      (subfolder_walk children [folder] visited).1
        = folder ::
            (subfolder_walk children (children folder) (insert folder visited)).1) ∧
    (get_all_subfolders children folder).Nodup ∧
    (get_all_subfolders children folder).toFinset
      = (subfolder_walk children [folder] ∅).2.val := by
  refine ⟨?_, ?_, ?_, ?_⟩
  · intro h
    rw [subfolder_walk, dif_pos h, subfolder_walk]
    exact ⟨rfl, rfl⟩
  · intro h
    rcases heq1 : subfolder_walk children (children folder) (insert folder visited)
      with ⟨l1, w1, hw1⟩
    rw [subfolder_walk, dif_neg h, heq1]
    dsimp only
    rw [subfolder_walk]
    simp
  · exact (subfolder_walk_spec children [folder] ∅).2.2.1
  · have h := (subfolder_walk_spec children [folder] ∅).2.1
    rw [Finset.sdiff_empty] at h
    exact h

/-- Witness for C5 on the two-container cycle A→B→A (ids `0 ⇄ 1` in `Fin 2`):
the enumeration terminates with `[0, 1]`, visiting each container exactly
once, and a root already in `visited` yields `[]` at once. -/
theorem get_all_subfolders_cycle_safe_witness :
    ((0 : Fin 2) ∈ ({0} : Finset (Fin 2)) ∧
      (subfolder_walk (fun i : Fin 2 => if i = 0 then [1] else [0]) [0] {0}).1 = []) ∧
    ((0 : Fin 2) ∉ (∅ : Finset (Fin 2)) ∧
      (subfolder_walk (fun i : Fin 2 => if i = 0 then [1] else [0]) [0] ∅).1
        = 0 :: (subfolder_walk (fun i : Fin 2 => if i = 0 then [1] else [0])
            ((fun i : Fin 2 => if i = 0 then [1] else [0]) 0) (insert 0 ∅)).1) ∧
    (get_all_subfolders (fun i : Fin 2 => if i = 0 then [1] else [0]) 0).Nodup ∧
    get_all_subfolders (fun i : Fin 2 => if i = 0 then [1] else [0]) 0 = [0, 1] :=
  ⟨⟨by decide,
    ((get_all_subfolders_cycle_safe (fun i : Fin 2 => if i = 0 then [1] else [0])
        0 {0}).1 (by decide)).1⟩,
   ⟨by decide,
    (get_all_subfolders_cycle_safe (fun i : Fin 2 => if i = 0 then [1] else [0])
        0 ∅).2.1 (by decide)⟩,
   (get_all_subfolders_cycle_safe (fun i : Fin 2 => if i = 0 then [1] else [0])
        0 ∅).2.2.1,
   by simp [get_all_subfolders, subfolder_walk]⟩

/-! ## Theorems: claim C6 (recursive transitive closure of files) -/

lemma reachable_mem_get_all_subfolders {α : Type*} [DecidableEq α] [Fintype α]
    (children : α → List α) (root f : α)
    (h : ReachableFolder children root f) :
    f ∈ get_all_subfolders children root := by
  have spec := subfolder_walk_spec children [root] ∅
  have hroot : root ∈ (subfolder_walk children [root] ∅).2.val :=
    spec.1 root (by simp)
  have hfW : f ∈ (subfolder_walk children [root] ∅).2.val := by
    induction h with
    | refl => exact hroot
    | tail _ hstep ih => exact spec.2.2.2 _ ih (Finset.not_mem_empty _) _ hstep
  have hset := spec.2.1
  rw [Finset.sdiff_empty] at hset
  rw [get_all_subfolders, ← List.mem_toFinset, hset]
  exact hfW

/-- C6 (confirmed): with subfolder processing enabled, `get_files_recursively`
returns the transitive closure of supported item metadata under the root:
every non-trashed file (the Drive query only reports non-trashed children)
whose media type is supported, sitting in the root folder or in any
transitively reachable subfolder, appears in the returned list — however many
files each folder holds and whatever the shape (even cyclic) of the folder
graph. -/
theorem get_files_recursively_complete {α : Type*} [DecidableEq α] [Fintype α]
    (children : α → List α) (listing : α → List DriveFile) (root f : α)
    (hreach : ReachableFolder children root f) (df : DriveFile)
    (hdf : df ∈ listing f) (hsupp : df.mimeType ∈ supported_mime_types) :
    (⟨df.webViewLink, df.id, df.name, df.mimeType⟩ : FileMetadata)
      ∈ get_files_recursively true children listing root := by
  rw [get_files_recursively, if_pos rfl]
  refine List.mem_flatten.mpr ⟨get_files_from_folder listing f,
    List.mem_map_of_mem _ (reachable_mem_get_all_subfolders children root f hreach), ?_⟩
  rw [get_files_from_folder]
  refine List.mem_filterMap.mpr ⟨df, hdf, ?_⟩
  rw [process_file_metadata, if_pos hsupp]

/-- Witness for C6 on a two-folder chain `0 → 1` with one supported file in
folder 1. -/
theorem get_files_recursively_complete_witness :
    ReachableFolder (fun i : Fin 2 => if i = 0 then [1] else []) 0 1 ∧
    (⟨"id1", "doc.txt", "text/plain", "link"⟩ : DriveFile)
      ∈ (fun i : Fin 2 =>
          if i = 1 then [(⟨"id1", "doc.txt", "text/plain", "link"⟩ : DriveFile)]
          else []) 1 ∧
    "text/plain" ∈ supported_mime_types ∧
    (⟨"link", "id1", "doc.txt", "text/plain"⟩ : FileMetadata)
      ∈ get_files_recursively true (fun i : Fin 2 => if i = 0 then [1] else [])
          (fun i : Fin 2 =>
            if i = 1 then [(⟨"id1", "doc.txt", "text/plain", "link"⟩ : DriveFile)]
            else []) 0 :=
  ⟨Relation.ReflTransGen.single (by unfold SubfolderStep; decide),
   by decide, by decide,
   get_files_recursively_complete (fun i : Fin 2 => if i = 0 then [1] else [])
     (fun i : Fin 2 =>
       if i = 1 then [(⟨"id1", "doc.txt", "text/plain", "link"⟩ : DriveFile)] else [])
     0 1 (Relation.ReflTransGen.single (by unfold SubfolderStep; decide))
     ⟨"id1", "doc.txt", "text/plain", "link"⟩ (by decide) (by decide)⟩

/-! ## Theorems: claim C7 (upsert drops invalid chunks, warns on mismatch) -/

/-- C7 (confirmed), four parts: (i) the points submitted across all batches
are exactly the per-chunk conversions of every chunk in order — dropping a
`None` conversion removes only that chunk while the rest of its batch is still
written; (ii) a chunk's conversion is dropped precisely when its `'embedding'`
is missing or its vector length differs from 1536 (the `if not embedding`
branch also catches an empty list, whose length 0 differs from 1536 anyway);
(iii) after all batches, `upsert_chunks` runs `_verify_upsert` on the
read-back count and returns its outcome — a total value, never an exception,
so a count mismatch cannot make `upsert_chunks` raise; (iv) a read-back count
different from the submitted count yields exactly the warning outcome. -/
lemma submitted_points_eq_filterMap {μ : Type*} (chunks : List (PipelineChunk μ))
    {bs : ℕ} (hbs : 0 < bs) :
    ((toBatches bs chunks).map (fun b => b.filterMap create_qdrant_point)).flatten
      = chunks.filterMap create_qdrant_point := by
  rw [← List.filterMap_flatten, toBatches_flatten hbs]

theorem upsert_chunks_drop_invalid_and_warn_only :
    (∀ (μ : Type*) (chunks : List (PipelineChunk μ)) (bs readBack : ℕ), 0 < bs →
      (upsert_chunks chunks bs readBack).1 = chunks.filterMap create_qdrant_point) ∧
    (∀ (μ : Type*) (c : PipelineChunk μ),
      create_qdrant_point c = none ↔
        c.embedding = none ∨ ∃ e, c.embedding = some e ∧ e.length ≠ 1536) ∧
    (∀ (μ : Type*) (chunks : List (PipelineChunk μ)) (bs readBack : ℕ), 0 < bs →
      (upsert_chunks chunks bs readBack).2
        = verify_upsert (chunks.filterMap create_qdrant_point).length readBack) ∧
    (∀ expected actual : ℕ, actual ≠ expected →
      verify_upsert expected actual = .countMismatch expected actual) := by
  refine ⟨?_, ?_, ?_, ?_⟩
  · intro μ chunks bs readBack hbs
    rw [upsert_chunks]
    exact submitted_points_eq_filterMap chunks hbs
  · intro μ c
    rcases hc : c.embedding with _ | e
    · simp [create_qdrant_point, hc]
    · by_cases hemp : e.isEmpty
      · have he : e = [] := List.isEmpty_iff.mp hemp
        subst he
        simp [create_qdrant_point, hc]
      · by_cases hlen : e.length = 1536
        · simp [create_qdrant_point, hc, hemp, hlen]
        · simp [create_qdrant_point, hc, hemp, hlen]
  · intro μ chunks bs readBack hbs
    rw [upsert_chunks]
    dsimp only
    rw [submitted_points_eq_filterMap chunks hbs]
  · intro expected actual hne
    rw [verify_upsert, if_neg hne]

set_option maxRecDepth 40000 in
theorem upsert_chunks_drop_invalid_and_warn_only_witness :
    0 < 100 ∧
    (upsert_chunks
        [(⟨"c1", 0, some zeroVec⟩ : PipelineChunk ℕ),
         ⟨"c2", 1, none⟩, ⟨"c3", 2, some [1, 2]⟩] 100 5).1
      = [(⟨"c1", 0, some zeroVec⟩ : PipelineChunk ℕ),
         ⟨"c2", 1, none⟩, ⟨"c3", 2, some [1, 2]⟩].filterMap create_qdrant_point ∧
    [(⟨"c1", 0, some zeroVec⟩ : PipelineChunk ℕ),
         ⟨"c2", 1, none⟩, ⟨"c3", 2, some [1, 2]⟩].filterMap create_qdrant_point
      = [⟨zeroVec, "c1", 0⟩] ∧
    (upsert_chunks
        [(⟨"c1", 0, some zeroVec⟩ : PipelineChunk ℕ),
         ⟨"c2", 1, none⟩, ⟨"c3", 2, some [1, 2]⟩] 100 5).2
      = VerifyOutcome.countMismatch 1 5 :=
  ⟨by decide,
   upsert_chunks_drop_invalid_and_warn_only.{0, 0, 0}.1 ℕ
     [⟨"c1", 0, some zeroVec⟩, ⟨"c2", 1, none⟩, ⟨"c3", 2, some [1, 2]⟩] 100 5
     (by decide),
   rfl, rfl⟩

/-! ## Theorems: claim C8 (per-collection isolation and exit status) -/

/-- C8 (confirmed): the orchestrator loop records one result per targeted
collection — each depending only on that collection's own oracles and store,
so a failure (caught by `process_collection`'s `except` and recorded as that
collection's result) never prevents later collections from being attempted —
and after all collections are attempted the process exit status is non-zero
iff at least one targeted collection failed. -/
theorem main_results_isolated_and_exit_code {μ : Type*}
    (runs : List (CollectionRun μ)) :
    (main_results runs).length = runs.length ∧
    (∀ (i : ℕ) (r : CollectionRun μ), runs.get? i = some r →
      (main_results runs).get? i = some (process_collection r.oracles r.store).1) ∧
    (process_exit_code runs ≠ 0 ↔
      ∃ r ∈ runs, ((process_collection r.oracles r.store).1).isSuccess = false) := by
  have key : 0 < failed_collections runs ↔
      ∃ r ∈ runs, ((process_collection r.oracles r.store).1).isSuccess = false := by
    rw [failed_collections, List.countP_pos_iff, main_results]
    constructor
    · rintro ⟨a, ha, hp⟩
      obtain ⟨r, hr, rfl⟩ := List.mem_map.mp ha
      exact ⟨r, hr, by simpa using hp⟩
    · rintro ⟨r, hr, hfail⟩
      exact ⟨(process_collection r.oracles r.store).1,
        List.mem_map_of_mem _ hr, by simp [hfail]⟩
  refine ⟨by simp [main_results], ?_, ?_⟩
  · intro i r hi
    rw [main_results, List.get?_map, hi, Option.map_some']
  · rw [process_exit_code]
    by_cases hpos : 0 < failed_collections runs
    · simp only [if_pos hpos]
      simpa using key.mp hpos
    · simp only [if_neg hpos]
      simp only [ne_eq, not_true_eq_false, false_iff]
      intro hex
      exact hpos (key.mpr hex)

theorem main_results_isolated_and_exit_code_witness :
    (main_results [(⟨"bad", demoFailOracles, []⟩ : CollectionRun Unit),
        ⟨"good", demoOkOracles, []⟩]).length = 2 ∧
    (main_results [(⟨"bad", demoFailOracles, []⟩ : CollectionRun Unit),
        ⟨"good", demoOkOracles, []⟩]).get? 1
      = some (process_collection demoOkOracles []).1 ∧
    ((process_collection demoOkOracles ([] : List (QdrantPoint Unit))).1).isSuccess
      = true ∧
    process_exit_code [(⟨"bad", demoFailOracles, []⟩ : CollectionRun Unit),
        ⟨"good", demoOkOracles, []⟩] ≠ 0 :=
  ⟨(main_results_isolated_and_exit_code _).1,
   (main_results_isolated_and_exit_code _).2.1 1 ⟨"good", demoOkOracles, []⟩ rfl,
   rfl,
   (main_results_isolated_and_exit_code _).2.2.mpr
     ⟨⟨"bad", demoFailOracles, []⟩, List.mem_cons_self _ _, rfl⟩⟩

/-! ## Theorems: claim C10 (no store mutation before the load phase) -/

/-- C10 (confirmed): the target collection is not mutated before embedding
completes.  In the model, connection verification and stats reads take no
store argument at all — they perform no writes — and the store transitions of
`clear_collection` / `upsert_chunks` sit in the branch entered only after
`add_embeddings_to_chunks` returned successfully.  Consequently, whenever the
run fails before the load phase (component verification raised, the Drive walk
raised, no files were found, no chunks were produced, or embedding raised),
`process_collection` returns the store exactly as it was and reports the run
as failed. -/
theorem process_collection_no_mutation_before_load {μ : Type*}
    (o : CollectionOracles μ) (store : List (QdrantPoint μ))
    (h : reachesLoadPhase o = false) :
    ((process_collection o store).1).isSuccess = false ∧
    (process_collection o store).2 = store := by
  rcases hv : o.verifyConnection with e | u
  · simp only [process_collection, hv]
    exact ⟨by simp [ColResult.isSuccess], by simp⟩
  · rcases hfi : o.fetchFiles with e | files
    · simp only [process_collection, hv, hfi]
      exact ⟨by simp [ColResult.isSuccess], by simp⟩
    · by_cases hfe : files.isEmpty = true
      · simp only [process_collection, hv, hfi]
        rw [if_pos hfe]
        exact ⟨by simp [ColResult.isSuccess], by simp⟩
      · by_cases hce : (o.chunkDocs ((files.map (fun f => (f, o.downloadContent f))).filter
            (fun d => d.2 ≠ ""))).isEmpty = true
        · simp only [process_collection, hv, hfi]
          rw [if_neg hfe, if_pos hce]
          exact ⟨by simp [ColResult.isSuccess], by simp⟩
        · rcases he : o.embed (o.chunkDocs ((files.map
              (fun f => (f, o.downloadContent f))).filter (fun d => d.2 ≠ "")))
            with e | cs
          · simp only [process_collection, hv, hfi]
            rw [if_neg hfe, if_neg hce, he]
            exact ⟨by simp [ColResult.isSuccess], by simp⟩
          · exfalso
            simp only [reachesLoadPhase, hv, hfi] at h
            rw [if_neg hfe, if_neg hce, he] at h
            exact Bool.true_eq_false.mp h

theorem process_collection_no_mutation_before_load_witness :
    reachesLoadPhase demoEmbedFailOracles = false ∧
    ((process_collection demoEmbedFailOracles
        [(⟨zeroVec, "old point", ()⟩ : QdrantPoint Unit)]).1).isSuccess = false ∧
    (process_collection demoEmbedFailOracles
        [(⟨zeroVec, "old point", ()⟩ : QdrantPoint Unit)]).2
      = [(⟨zeroVec, "old point", ()⟩ : QdrantPoint Unit)] :=
  ⟨rfl,
   (process_collection_no_mutation_before_load demoEmbedFailOracles
      [⟨zeroVec, "old point", ()⟩] rfl).1,
   (process_collection_no_mutation_before_load demoEmbedFailOracles
      [⟨zeroVec, "old point", ()⟩] rfl).2⟩

end DriveQdrant
